import Mathlib

/-!
Shallow embedding of `src/generator.ts` from the `openapi-to-ts` repository.

The source is a single TypeScript module converting OpenAPI component
schemas into TypeScript declaration text.  Schemas are modelled as an
inductive record of optional fields mirroring the `Schema` interface;
the JavaScript `Record`s (`properties`, the schema mapping) are modelled
as ordered association lists, matching JS string-key insertion order.

JavaScript partiality is made explicit:
* a `TypeError` thrown by dereferencing `undefined` (as `inlineObject`
  does when handed a missing `$ref` target) is `Except.error .typeError`;
* potential non-termination of the mutually recursive
  `mapType`/`inlineObject` pair under `inlineRef` is handled with a fuel
  parameter, decremented once per `mapType` entry; `Except.error .outOfFuel`
  means the computation did not finish within the given fuel.  A run that
  yields `.error .outOfFuel` for every fuel diverges in JS.

String operations (`trim`, the regexes of `safeEnumKey`, `toUpperCase`)
are modelled over the ASCII ranges the regexes name; `toUpperCase` is
ASCII uppercasing via `Char.toUpper`.
-/

/-- The `GeneratorOptions` interface: `interfacePrefix?: string` (used via
`options.interfacePrefix ?? "I"`, so `none` models an absent field) and
`inlineRef?: boolean` (used only for truthiness, so a plain `Bool` with
`false` modelling the absent field). -/
structure GeneratorOptions where
  interfacePrefix : Option String := none
  inlineRef : Bool := false
deriving Repr, DecidableEq

/-- The `Schema` interface: every field optional.  Field order matches the
source declaration: `type`, `enum`, `properties`, `required`, `oneOf`,
`anyOf`, `allOf`, `$ref` (here `ref`), `items`. -/
inductive Schema where
  | mk
    (type : Option String)
    (enum : Option (List String))
    (properties : Option (List (String × Schema)))
    (required : Option (List String))
    (oneOf : Option (List Schema))
    (anyOf : Option (List Schema))
    (allOf : Option (List Schema))
    (ref : Option String)
    (items : Option Schema)
    : Schema

/-- `schema.type` accessor. -/
def Schema.type : Schema → Option String
  | .mk t _ _ _ _ _ _ _ _ => t

/-- `schema.enum` accessor. -/
def Schema.enum : Schema → Option (List String)
  | .mk _ e _ _ _ _ _ _ _ => e

/-- `schema.properties` accessor. -/
def Schema.properties : Schema → Option (List (String × Schema))
  | .mk _ _ p _ _ _ _ _ _ => p

/-- `schema.required` accessor. -/
def Schema.required : Schema → Option (List String)
  | .mk _ _ _ r _ _ _ _ _ => r

/-- `schema.oneOf` accessor. -/
def Schema.oneOf : Schema → Option (List Schema)
  | .mk _ _ _ _ o _ _ _ _ => o

/-- `schema.anyOf` accessor. -/
def Schema.anyOf : Schema → Option (List Schema)
  | .mk _ _ _ _ _ a _ _ _ => a

/-- `schema.allOf` accessor. -/
def Schema.allOf : Schema → Option (List Schema)
  | .mk _ _ _ _ _ _ al _ _ => al

/-- `schema.$ref` accessor. -/
def Schema.ref : Schema → Option String
  | .mk _ _ _ _ _ _ _ rf _ => rf

/-- `schema.items` accessor. -/
def Schema.items : Schema → Option Schema
  | .mk _ _ _ _ _ _ _ _ it => it

/-- JS truthiness of an optional string field: truthy iff present and
non-empty (the empty string is falsy in JS). -/
def truthyStr : Option String → Bool
  | some s => !s.isEmpty
  | none => false

/-- Whitespace characters matched by the JS regex class `\s` (ASCII part)
and removed by `String.prototype.trim`. -/
def isJsSpace (c : Char) : Bool :=
  c = ' ' || c = '\t' || c = '\n' || c = '\r' || c = '\x0b' || c = '\x0c'

/-- A character matched by the class `[-\s]` of `safeEnumKey`'s first regex. -/
def isSepChar (c : Char) : Bool :=
  c = '-' || isJsSpace c

/-- `[a-z0-9]` — the first group of `safeEnumKey`'s camel-case regex. -/
def isLowerDigit (c : Char) : Bool :=
  ('a' ≤ c && c ≤ 'z') || ('0' ≤ c && c ≤ '9')

/-- `[A-Z]` — the second group of `safeEnumKey`'s camel-case regex. -/
def isUpperAscii (c : Char) : Bool :=
  'A' ≤ c && c ≤ 'Z'

/-- `\d` at the start of the string — `safeEnumKey`'s digit test. -/
def isDigitChar (c : Char) : Bool :=
  '0' ≤ c && c ≤ '9'

/-- `key.trim()` on the character list. -/
def jsTrim (cs : List Char) : List Char :=
  ((cs.dropWhile isJsSpace).reverse.dropWhile isJsSpace).reverse

/-- `replace(/[-\s]+/g, "_")`: each maximal run of hyphens/whitespace
becomes a single underscore. -/
def collapseSep : List Char → List Char
  | [] => []
  | [c] => if isSepChar c then ['_'] else [c]
  | c1 :: c2 :: rest =>
    if isSepChar c1 && isSepChar c2 then collapseSep (c2 :: rest)
    else (if isSepChar c1 then '_' else c1) :: collapseSep (c2 :: rest)

/-- `replace(/([a-z0-9])([A-Z])/g, "$1_$2")`: insert an underscore between a
lowercase-or-digit character and a following ASCII uppercase letter.  The
regex consumes both characters per match, but since the second group is
uppercase it can never open the next match, so a left-to-right scan that
keeps the uppercase character available is equivalent. -/
def camelSep : List Char → List Char
  | [] => []
  | a :: rest =>
    match rest with
    | [] => [a]
    | b :: _ =>
      if isLowerDigit a && isUpperAscii b then a :: '_' :: camelSep rest
      else a :: camelSep rest

/-- `safeEnumKey(key)` from the source: trim; collapse `[-\s]+` runs to `_`;
camelCase → snake_case; prepend `_` when the result starts with a digit;
uppercase. -/
def safeEnumKey (key : String) : String :=
  let s1 := collapseSep (jsTrim key.toList)
  let s2 := camelSep s1
  let s3 := match s2 with
    | c :: _ => if isDigitChar c then '_' :: s2 else s2
    | [] => s2
  String.mk (s3.map Char.toUpper)

/-- The single-quote character, for `safeKey`'s quoted fallback. -/
def squoteChar : Char := '\x27'

/-- `/^[a-zA-Z_]\w*$/` — `safeKey`'s bare-identifier test. -/
def isIdentChar (c : Char) : Bool :=
  ('a' ≤ c && c ≤ 'z') || ('A' ≤ c && c ≤ 'Z') || ('0' ≤ c && c ≤ '9') || c = '_'

/-- Head character of the bare-identifier pattern: `[a-zA-Z_]`. -/
def isIdentStart (c : Char) : Bool :=
  ('a' ≤ c && c ≤ 'z') || ('A' ≤ c && c ≤ 'Z') || c = '_'

/-- `safeKey(key)` from the source: keep the key when it matches
`/^[a-zA-Z_]\w*$/`, otherwise wrap it in single quotes. -/
def safeKey (key : String) : String :=
  match key.toList with
  | c :: rest =>
    if isIdentStart c && rest.all isIdentChar then key
    else String.mk (squoteChar :: key.toList ++ [squoteChar])
  | [] => String.mk (squoteChar :: key.toList ++ [squoteChar])

/-- The structural prefix stripped from `$ref` tokens. -/
def refPat : List Char := "#/components/schemas/".toList

/-- `$ref.replace("#/components/schemas/", "")`: JS `String.replace` with a
string pattern removes the first occurrence only. -/
def refStrip : List Char → List Char
  | [] => []
  | c :: rest =>
    if refPat.isPrefixOf (c :: rest) then (c :: rest).drop refPat.length
    else c :: refStrip rest

/-- The bare declared name recovered from a `$ref` token. -/
def refBareName (r : String) : String :=
  String.mk (refStrip r.toList)

/-- `refName($ref, options)` from the source:
`(options.interfacePrefix ?? "I") + name`. -/
def refName (r : String) (options : GeneratorOptions) : String :=
  (options.interfacePrefix.getD "I") ++ refBareName r

/-- JS runtime outcomes other than a value: a thrown `TypeError`
(dereferencing `undefined`), or exhaustion of the termination fuel. -/
inductive JsErr where
  | typeError
  | outOfFuel
deriving Repr, DecidableEq

/-- JS `Array.prototype.join(sep)` on a list of strings: empty list gives
`""`, a singleton gives its element, otherwise elements separated by
`sep`, in order. -/
def joinSep (sep : String) : List String → String
  | [] => ""
  | [t] => t
  | t :: rest => t ++ sep ++ joinSep sep rest

mutual

/-- `mapType(schema, allSchemas, options)` from the source.  `fuel` is the
termination budget, decremented on entry to each function of the mutually
recursive group; `.error .outOfFuel` for every fuel models divergence.
`schema?` is `none` when JS would pass `undefined` (the source guards this
with `if (!schema) return "any"`). -/
def mapType : Nat → Option Schema → List (String × Schema) → GeneratorOptions → Except JsErr String
  | 0, _, _, _ => .error .outOfFuel
  | Nat.succ fuel, schema?, allSchemas, options =>
    match schema? with
    | none => .ok "any"
    | some (.mk t e props req o1 a1 al rf it) =>
      if truthyStr rf then
        if options.inlineRef then
          inlineObject fuel (List.lookup (refBareName (rf.getD "")) allSchemas) allSchemas true options
        else
          .ok (refName (rf.getD "") options)
      else
        match o1 with
        | some ss => do
          let ts ← mapTypeList fuel ss allSchemas options
          .ok (joinSep " | " ts)
        | none =>
        match a1 with
        | some ss => do
          let ts ← mapTypeList fuel ss allSchemas options
          .ok (joinSep " | " ts)
        | none =>
        match al with
        | some ss => do
          let ts ← mapTypeList fuel ss allSchemas options
          .ok (joinSep " & " ts)
        | none =>
        match t with
        | some "integer" => .ok "number"
        | some "number" => .ok "number"
        | some "string" =>
          match e with
          | some es =>
            if es.isEmpty then .ok "string"
            else .ok (joinSep " | " (es.map (fun v => "\"" ++ v ++ "\"")))
          | none => .ok "string"
        | some "boolean" => .ok "boolean"
        | some "array" =>
          match it with
          | some itm => do
            let s ← mapType fuel (some itm) allSchemas options
            .ok (s ++ "[]")
          | none => .ok "any[]"
        | some "object" =>
          if props.isSome then
            inlineObject fuel (some (.mk t e props req o1 a1 al rf it)) allSchemas true options
          else .ok "\x7b [key: string]: any \x7d"
        | _ => .ok "any"

/-- `schema.oneOf.map(s => mapType(s, allSchemas, options))` and its `anyOf`
and `allOf` twins: left-to-right mapping, where the first thrown error
aborts the whole map (as in JS). -/
def mapTypeList : Nat → List Schema → List (String × Schema) → GeneratorOptions → Except JsErr (List String)
  | 0, _, _, _ => .error .outOfFuel
  | Nat.succ fuel, l, allSchemas, options =>
    match l with
    | [] => .ok []
    | s :: rest => do
      let ty ← mapType fuel (some s) allSchemas options
      let ts ← mapTypeList fuel rest allSchemas options
      .ok (ty :: ts)

/-- `inlineObject(schema, allSchemas, withBraces, options)` from the
source.  A `none` schema models `undefined` (the unresolved-`$ref` case):
the source then evaluates `schema.properties` and throws a `TypeError`.
The `withBraces` parameter is declared by the source but never read. -/
def inlineObject : Nat → Option Schema → List (String × Schema) → Bool → GeneratorOptions → Except JsErr String
  | 0, _, _, _, _ => .error .outOfFuel
  | Nat.succ fuel, schema?, allSchemas, _withBraces, options =>
    match schema? with
    | none => .error .typeError
    | some (.mk _t _e props req _o1 _a1 _al _rf _it) =>
      match props with
      | none => .ok "\x7b\x7d"
      | some ps => do
        let lines ← inlineProps fuel req ps allSchemas options
        .ok ("\x7b\n" ++ joinSep "\n" lines ++ "\n\x7d")

/-- The body of `inlineObject`'s `Object.entries(schema.properties).map`:
one rendered field line per property, in property order.  `req` is the
enclosing schema's `required` list (the mapped lambda reads only
`schema.required` from its closure). -/
def inlineProps : Nat → Option (List String) → List (String × Schema) → List (String × Schema) → GeneratorOptions → Except JsErr (List String)
  | 0, _, _, _, _ => .error .outOfFuel
  | Nat.succ fuel, req, l, allSchemas, options =>
    match l with
    | [] => .ok []
    | (prop, propSchema) :: rest => do
      let typeStr ← mapType fuel (some propSchema) allSchemas options
      let line := "  " ++ safeKey prop ++ (if (req.getD []).contains prop then "" else "?") ++ ": " ++ typeStr ++ ";"
      let lines ← inlineProps fuel req rest allSchemas options
      .ok (line :: lines)

end

/-- The variant-rendering lambda shared by `generateType`'s `oneOf`/`anyOf`
and `allOf` branches:
`s.$ref ? refName(s.$ref, options) : inlineObject(s, allSchemas, true, options)`. -/
def genVariant (fuel : Nat) (allSchemas : List (String × Schema)) (options : GeneratorOptions) (s : Schema) : Except JsErr String :=
  if truthyStr s.ref then .ok (refName (s.ref.getD "") options)
  else inlineObject fuel (some s) allSchemas true options

/-- Left-to-right map of `genVariant` over a combinator's variant list. -/
def genVariants (fuel : Nat) (allSchemas : List (String × Schema)) (options : GeneratorOptions) : List Schema → Except JsErr (List String)
  | [] => .ok []
  | s :: rest => do
    let t ← genVariant fuel allSchemas options s
    let ts ← genVariants fuel allSchemas options rest
    .ok (t :: ts)

/-- `generateType(name, schema, allSchemas, options)` from the source: the
declaration emitter.  Branch order as in the source: `enum`, then
`oneOf || anyOf`, then `allOf`, then `type === "object" || properties`,
then the `any` alias fallback. -/
def generateType (fuel : Nat) (name : String) (schema : Schema) (allSchemas : List (String × Schema)) (options : GeneratorOptions) : Except JsErr String :=
  let interfacePrefix := options.interfacePrefix.getD "I"
  match schema.enum with
  | some es =>
    .ok ("export enum " ++ interfacePrefix ++ name ++ " \x7b\n" ++
      joinSep "\n" (es.map (fun v => "  " ++ safeEnumKey v ++ " = \"" ++ v ++ "\",")) ++ "\n\x7d")
  | none =>
    if schema.oneOf.isSome || schema.anyOf.isSome then do
      let variants ← genVariants fuel allSchemas options (schema.oneOf.getD (schema.anyOf.getD []))
      .ok ("export type " ++ interfacePrefix ++ name ++ " = " ++ joinSep " | " variants ++ ";")
    else
      match schema.allOf with
      | some parts => do
        let rendered ← genVariants fuel allSchemas options parts
        .ok ("export type " ++ interfacePrefix ++ name ++ " = " ++ joinSep " & " rendered ++ ";")
      | none =>
        if schema.type == some "object" || schema.properties.isSome then do
          let objStr ← inlineObject fuel (some schema) allSchemas true options
          .ok ("export interface " ++ interfacePrefix ++ name ++ " " ++ objStr)
        else
          .ok ("export type " ++ interfacePrefix ++ name ++ " = any;")

mutual

/-- No `oneOf`/`anyOf`/`allOf` list reachable through combinator nesting is
empty.  (Empty combinator lists make `mapType` render an empty join; fields
other than the three combinator lists cannot make `mapType`'s result
empty, so the predicate does not descend into `properties` or `items`.) -/
def noEmptyComb : Schema → Bool
  | .mk _t _e _p _r o1 a1 al _rf _it => combOk o1 && combOk a1 && combOk al

/-- One combinator field is absent, or a non-empty list all of whose
members satisfy `noEmptyComb`. -/
def combOk : Option (List Schema) → Bool
  | none => true
  | some l => !l.isEmpty && noEmptyCombList l

/-- `noEmptyComb` on every member of a variant list. -/
def noEmptyCombList : List Schema → Bool
  | [] => true
  | s :: rest => noEmptyComb s && noEmptyCombList rest

end

/-- `noEmptyComb` lifted to the optional schema argument of `mapType`
(an absent schema maps to the fixed text `any`, which is non-empty). -/
def noEmptyOpt : Option Schema → Bool
  | none => true
  | some sc => noEmptyComb sc

/-- A schema carrying only `type`. -/
def tySchema (t : String) : Schema := .mk (some t) none none none none none none none none

/-- A schema carrying only `$ref`. -/
def refOnly (r : String) : Schema := .mk none none none none none none none (some r) none

/-- `A` from the spec's reference-round-trip example: `{$ref: "B"}`. -/
def schemaA : Schema := refOnly "B"

/-- `B` from the spec's reference-round-trip example: `{type: "string"}`. -/
def schemaB : Schema := tySchema "string"

/-- The round-trip example's schema mapping `{A: {$ref:"B"}, B: {type:"string"}}`. -/
def mappingAB : List (String × Schema) := [("A", schemaA), ("B", schemaB)]

/-- A `$ref` whose bare name (`Missing`) is absent from the mapping. -/
def missingRefSchema : Schema := refOnly "#/components/schemas/Missing"

/-- Options with inline reference expansion on. -/
def optsInline : GeneratorOptions := { inlineRef := true }

/-- Cyclic example: object schema `A` whose property `b` references `B`. -/
def cycA : Schema := .mk (some "object") none (some [("b", refOnly "B")]) none none none none none none

/-- Cyclic example: object schema `B` whose property `a` references back to `A`. -/
def cycB : Schema := .mk (some "object") none (some [("a", refOnly "A")]) none none none none none none

/-- The mutually referencing schema mapping `{A, B}`. -/
def cycMapping : List (String × Schema) := [("A", cycA), ("B", cycB)]

/-- The schema `{oneOf: []}`: present-but-empty union combinator. -/
def emptyOneOfSchema : Schema := .mk none none none none (some []) none none none none

/-- The schema `{type: "integer", enum: ["x"]}`: non-empty enum under a
non-string recognized type. -/
def intEnumSchema : Schema := .mk (some "integer") (some ["x"]) none none none none none none none

/-- The schema with `enum` and `oneOf` both present, for the precedence
scenario. -/
def enumOneOfSchema : Schema := .mk none (some ["a"]) none none (some [tySchema "string"]) none none none none

/-- Drop the top-level `enum` field of a schema, leaving the rest. -/
def eraseEnum : Schema → Schema
  | .mk t _e p r o1 a1 al rf it => .mk t none p r o1 a1 al rf it

/-- An object schema with two properties, `a` required and `b` optional. -/
def objExample : Schema :=
  .mk (some "object") none (some [("a", tySchema "string"), ("b", tySchema "boolean")]) (some ["a"]) none none none none none

/-- A schema with a two-variant `oneOf`. -/
def unionExample : Schema := .mk none none none none (some [tySchema "string", tySchema "number"]) none none none none

/-- A schema with a two-variant `anyOf`. -/
def anyOfExample : Schema := .mk none none none none none (some [tySchema "string", tySchema "number"]) none none none

/-- A schema with a two-member `allOf`. -/
def allOfExample : Schema := .mk none none none none none none (some [objExample, tySchema "string"]) none none

/-- Accessor reduction on a constructed schema. -/
@[simp] lemma type_mk (t e p r o1 a1 al rf it) : (Schema.mk t e p r o1 a1 al rf it).type = t := rfl

/-- Accessor reduction on a constructed schema. -/
@[simp] lemma enum_mk (t e p r o1 a1 al rf it) : (Schema.mk t e p r o1 a1 al rf it).enum = e := rfl

/-- Accessor reduction on a constructed schema. -/
@[simp] lemma properties_mk (t e p r o1 a1 al rf it) : (Schema.mk t e p r o1 a1 al rf it).properties = p := rfl

/-- Accessor reduction on a constructed schema. -/
@[simp] lemma required_mk (t e p r o1 a1 al rf it) : (Schema.mk t e p r o1 a1 al rf it).required = r := rfl

/-- Accessor reduction on a constructed schema. -/
@[simp] lemma oneOf_mk (t e p r o1 a1 al rf it) : (Schema.mk t e p r o1 a1 al rf it).oneOf = o1 := rfl

/-- Accessor reduction on a constructed schema. -/
@[simp] lemma anyOf_mk (t e p r o1 a1 al rf it) : (Schema.mk t e p r o1 a1 al rf it).anyOf = a1 := rfl

/-- Accessor reduction on a constructed schema. -/
@[simp] lemma allOf_mk (t e p r o1 a1 al rf it) : (Schema.mk t e p r o1 a1 al rf it).allOf = al := rfl

/-- Accessor reduction on a constructed schema. -/
@[simp] lemma ref_mk (t e p r o1 a1 al rf it) : (Schema.mk t e p r o1 a1 al rf it).ref = rf := rfl

/-- Accessor reduction on a constructed schema. -/
@[simp] lemma items_mk (t e p r o1 a1 al rf it) : (Schema.mk t e p r o1 a1 al rf it).items = it := rfl

/-- A string append is non-empty when its left part is. -/
lemma append_ne_empty_left (a b : String) (h : a ≠ "") : a ++ b ≠ "" := by
  intro hc
  apply h
  have hlen : a.length + b.length = 0 := by
    have := congrArg String.length hc
    simpa [String.length_append] using this
  have ha : a.length = 0 := by omega
  cases a with
  | mk d =>
    cases d with
    | nil => rfl
    | cons c cs => simp [String.length] at ha

/-- A string append is non-empty when its right part is. -/
lemma append_ne_empty_right (a b : String) (h : b ≠ "") : a ++ b ≠ "" := by
  intro hc
  apply h
  have hlen : a.length + b.length = 0 := by
    have := congrArg String.length hc
    simpa [String.length_append] using this
  have hb : b.length = 0 := by omega
  cases b with
  | mk d =>
    cases d with
    | nil => rfl
    | cons c cs => simp [String.length] at hb

/-- A join is non-empty when the head element is. -/
lemma joinSep_ne_empty (sep t : String) (rest : List String) (h : t ≠ "") :
    joinSep sep (t :: rest) ≠ "" := by
  cases rest with
  | nil => simpa [joinSep] using h
  | cons u us =>
    show t ++ sep ++ joinSep sep (u :: us) ≠ ""
    exact append_ne_empty_left _ _ (append_ne_empty_left _ _ h)

/-- Splitting a join at a member: the mapped image of any member occurs
verbatim, surrounded by some prefix and suffix. -/
lemma joinSep_mem_split {α : Type} (f : α → String) (sep : String) :
    ∀ (l : List α) (v : α), v ∈ l →
      ∃ pre post, joinSep sep (l.map f) = pre ++ f v ++ post := by
  intro l
  induction l with
  | nil => intro v hv; cases hv
  | cons w rest ih =>
    intro v hv
    rcases List.mem_cons.mp hv with hvw | hvr
    · subst hvw
      cases rest with
      | nil => exact ⟨"", "", by simp [joinSep]⟩
      | cons u us =>
        refine ⟨"", sep ++ joinSep sep ((u :: us).map f), ?_⟩
        show f v ++ sep ++ joinSep sep ((u :: us).map f)
           = "" ++ f v ++ (sep ++ joinSep sep ((u :: us).map f))
        simp [String.append_assoc]
    · obtain ⟨pre, post, hsplit⟩ := ih v hvr
      cases rest with
      | nil => cases hvr
      | cons u us =>
        refine ⟨f w ++ sep ++ pre, post, ?_⟩
        show f w ++ sep ++ joinSep sep ((u :: us).map f)
           = f w ++ sep ++ pre ++ f v ++ post
        rw [hsplit]
        simp [String.append_assoc]

/-- C1.  The claim's `inlineRef=true` half is false on the code: mapping
`A` over `{A: {$ref:"B"}, B: {type:"string"}}` with inline expansion goes
through `inlineObject`, which renders the propertyless schema `B` as the
empty-object literal, not as `string`. -/
theorem claim_C1_counterexample :
    mapType 3 (some schemaA) mappingAB optsInline = .ok "\x7b\x7d" ∧
    ¬ mapType 3 (some schemaA) mappingAB optsInline = .ok "string" := by
  constructor
  · rfl
  · intro h
    rw [show mapType 3 (some schemaA) mappingAB optsInline = .ok "\x7b\x7d" from rfl] at h
    exact absurd (Except.ok.inj h) (by decide)

/-- C1 (amended).  Over `{A: {$ref:"B"}, B: {type:"string"}}`: with
`inlineRef=false`, mapping `A` yields the declared-type name `IB`; with
`inlineRef=true`, mapping `A` yields the empty-object literal (for any
sufficient fuel). -/
theorem claim_C1 : ∀ f : Nat,
    mapType (f + 1) (some schemaA) mappingAB {} = .ok "IB" ∧
    mapType (f + 2) (some schemaA) mappingAB optsInline = .ok "\x7b\x7d" :=
  fun _ => ⟨rfl, rfl⟩

/-- C2.  At the failing input — a `$ref` to a name absent from the schema
mapping, with `inlineRef=true` — `mapType` passes `undefined` to
`inlineObject`, which dereferences it (`schema.properties`) and throws a
`TypeError`, for every fuel; with `inlineRef=false` the same schema maps
normally to a declared-type name. -/
theorem claim_C2 : ∀ f : Nat,
    mapType (f + 2) (some missingRefSchema) [] optsInline = .error .typeError ∧
    mapType (f + 1) (some missingRefSchema) [] {} = .ok "IMissing" :=
  fun _ => ⟨rfl, rfl⟩

/-- C7.  The enum-member sanitizer on the three specified inputs, and its
totality/determinism (it is a Lean function, defined on every string). -/
theorem claim_C7 :
    safeEnumKey "user-name" = "USER_NAME" ∧
    safeEnumKey "2fa" = "_2FA" ∧
    safeEnumKey "userName" = "USER_NAME" ∧
    ∀ s : String, ∃ k : String, safeEnumKey s = k :=
  ⟨by decide, by decide, by decide, fun s => ⟨safeEnumKey s, rfl⟩⟩

/-- `Except` bind on an error propagates the error. -/
lemma bindE_error {α β : Type} (e : JsErr) (f : α → Except JsErr β) :
    (Except.error e : Except JsErr α) >>= f = .error e := rfl

/-- `Except` bind on a success applies the continuation. -/
lemma bindE_ok {α β : Type} (a : α) (f : α → Except JsErr β) :
    (Except.ok a : Except JsErr α) >>= f = f a := rfl

/-- One half-cycle of the mutual recursion on the `A`/`B` example: if
rendering `B` runs out of fuel, rendering `A` with three more fuel units
also runs out (the three units are consumed by `inlineObject`,
`inlineProps` and `mapType` on the `$ref` property). -/
lemma cycStepA (k : Nat)
    (hB : inlineObject k (some cycB) cycMapping true optsInline = .error .outOfFuel) :
    inlineObject (k + 1 + 1 + 1) (some cycA) cycMapping true optsInline = .error .outOfFuel := by
  have hm : mapType (k + 1) (some (refOnly "B")) cycMapping optsInline = .error .outOfFuel := hB
  simp [inlineObject, inlineProps, cycA, hm, bindE_error, bindE_ok]

/-- The symmetric half-cycle, from `A` to `B`. -/
lemma cycStepB (k : Nat)
    (hA : inlineObject k (some cycA) cycMapping true optsInline = .error .outOfFuel) :
    inlineObject (k + 1 + 1 + 1) (some cycB) cycMapping true optsInline = .error .outOfFuel := by
  have hm : mapType (k + 1) (some (refOnly "A")) cycMapping optsInline = .error .outOfFuel := hA
  simp [inlineObject, inlineProps, cycB, hm, bindE_error, bindE_ok]

/-- Rendering either mutually referencing schema inline exhausts any fuel. -/
lemma cyc_outOfFuel : ∀ f,
    inlineObject f (some cycA) cycMapping true optsInline = .error .outOfFuel ∧
    inlineObject f (some cycB) cycMapping true optsInline = .error .outOfFuel := by
  intro f
  induction f using Nat.strong_induction_on with
  | _ f ih =>
    rcases f with _ | _ | _ | k
    · exact ⟨rfl, rfl⟩
    · exact ⟨rfl, rfl⟩
    · exact ⟨rfl, rfl⟩
    · have h1 := ih k (by omega)
      exact ⟨cycStepA k h1.2, cycStepB k h1.1⟩

/-- C5.  With `inlineRef=true`, on the mapping where `A`'s properties
reference `B` and `B`'s properties reference back to `A`, `mapType` on `A`
exhausts every fuel bound: the mutual recursion of the type-expression
mapper and the inline object renderer does not terminate. -/
theorem claim_C5 : ∀ fuel,
    mapType fuel (some cycA) cycMapping optsInline = .error .outOfFuel := by
  intro fuel
  rcases fuel with _ | f
  · rfl
  · show inlineObject f (some cycA) cycMapping true optsInline = .error .outOfFuel
    exact (cyc_outOfFuel f).1

/-- C4.  Precedence of the declaration emitter: whenever `enum` and `oneOf`
are both present, the emitted declaration is the named enum (the `enum`
branch is checked first and wins over the union branch). -/
theorem claim_C4 : ∀ fuel name (schema : Schema) m o es ss,
    schema.enum = some es → schema.oneOf = some ss →
    ∃ body, generateType fuel name schema m o
      = .ok ("export enum " ++ (o.interfacePrefix.getD "I") ++ name ++ body) := by
  intro fuel name schema m o es ss hE hO
  refine ⟨" \x7b\n" ++ joinSep "\n" (es.map (fun v => "  " ++ safeEnumKey v ++ " = \"" ++ v ++ "\",")) ++ "\n\x7d", ?_⟩
  simp [generateType, hE, String.append_assoc]

/-- C4 witness: the schema `{enum: ["a"], oneOf: [{type:"string"}]}` is
emitted as an enum declaration. -/
theorem claim_C4_witness :
    Schema.enum enumOneOfSchema = some ["a"] ∧
    Schema.oneOf enumOneOfSchema = some [tySchema "string"] ∧
    ∃ body, generateType 1 "X" enumOneOfSchema [] {}
      = .ok ("export enum " ++ (({} : GeneratorOptions).interfacePrefix.getD "I") ++ "X" ++ body) :=
  ⟨rfl, rfl, claim_C4 1 "X" enumOneOfSchema [] {} ["a"] [tySchema "string"] rfl rfl⟩

/-- C9.  In a top-level union declaration, a variant that is not a `$ref`
and has no `properties` is rendered by the inline object renderer as the
empty-object literal, not as its mapped primitive type expression (the
same schema maps to `string` under `mapType`). -/
theorem claim_C9 : ∀ fuel name (v : Schema) m o,
    truthyStr v.ref = false → v.properties = none →
    genVariant (fuel + 1) m o v = .ok "\x7b\x7d" ∧
    generateType (fuel + 1) name (.mk none none none none (some [v]) none none none none) m o
      = .ok ("export type " ++ (o.interfacePrefix.getD "I") ++ name ++ " = \x7b\x7d;") ∧
    mapType (fuel + 1) (some (tySchema "string")) m o = .ok "string" := by
  intro fuel name v m o href hprops
  obtain ⟨t, e, p, r, o1, a1, al, rf, it⟩ := v
  simp only [ref_mk] at href
  simp only [properties_mk] at hprops
  subst hprops
  have h1 : genVariant (fuel + 1) m o (.mk t e none r o1 a1 al rf it) = .ok "\x7b\x7d" := by
    simp [genVariant, href, inlineObject]
  refine ⟨h1, ?_, rfl⟩
  simp [generateType, genVariants, h1, bindE_ok, joinSep, String.append_assoc]

/-- C9 witness: the variant `{type:"string"}` inside `{oneOf: [...]}`. -/
theorem claim_C9_witness :
    truthyStr (Schema.ref (tySchema "string")) = false ∧
    Schema.properties (tySchema "string") = none ∧
    (genVariant 1 [] {} (tySchema "string") = .ok "\x7b\x7d" ∧
     generateType 1 "X" (.mk none none none none (some [tySchema "string"]) none none none none) [] {}
       = .ok ("export type " ++ (({} : GeneratorOptions).interfacePrefix.getD "I") ++ "X" ++ " = \x7b\x7d;") ∧
     mapType 1 (some (tySchema "string")) [] {} = .ok "string") :=
  ⟨rfl, rfl, claim_C9 0 "X" (tySchema "string") [] {} rfl rfl⟩

/-- `mapType` never reads `enum` except under `type:"string"`: dropping the
top-level `enum` of any non-string-typed schema leaves the result
unchanged. -/
lemma mapType_eraseEnum : ∀ fuel (sc : Schema) m o, sc.type ≠ some "string" →
    mapType fuel (some sc) m o = mapType fuel (some (eraseEnum sc)) m o := by
  intro fuel sc m o hT
  obtain ⟨t, e, p, r, o1, a1, al, rf, it⟩ := sc
  simp only [type_mk] at hT
  rcases fuel with _ | k
  · rfl
  · simp only [eraseEnum]
    cases htr : truthyStr rf
    · cases o1 with
      | some ss => simp [mapType, htr]
      | none =>
        cases a1 with
        | some ss => simp [mapType, htr]
        | none =>
          cases al with
          | some ss => simp [mapType, htr]
          | none =>
            cases t with
            | none => simp [mapType, htr]
            | some tv =>
              by_cases h1 : tv = "integer"
              · subst h1; simp [mapType, htr]
              · by_cases h2 : tv = "number"
                · subst h2; simp [mapType, htr]
                · by_cases h3 : tv = "string"
                  · exact absurd (by rw [h3]) hT
                  · by_cases h4 : tv = "boolean"
                    · subst h4; simp [mapType, htr]
                    · by_cases h5 : tv = "array"
                      · subst h5
                        cases it with
                        | none => simp [mapType, htr]
                        | some itm => simp [mapType, htr]
                      · by_cases h6 : tv = "object"
                        · subst h6
                          cases p with
                          | none => simp [mapType, htr]
                          | some ps =>
                            simp only [mapType, htr]
                            rcases k with _ | j
                            · rfl
                            · simp [inlineObject]
                        · simp [mapType, htr, h1, h2, h3, h4, h5, h6]
    · simp [mapType, htr]

/-- C8 counterexample to the claim as stated: `{type:"integer", enum:["x"]}`
has a non-empty enum and a type different from `"string"`, yet `mapType`
returns `"number"`, not `"any"`. -/
theorem claim_C8_counterexample :
    mapType 1 (some intEnumSchema) [] {} = .ok "number" ∧
    ¬ mapType 1 (some intEnumSchema) [] {} = .ok "any" := by
  constructor
  · rfl
  · intro h
    rw [show mapType 1 (some intEnumSchema) [] {} = .ok "number" from rfl] at h
    exact absurd (Except.ok.inj h) (by decide)

/-- C8 (amended).  `mapType` honors `enum` only when `type` is `"string"`:
for any schema with type ≠ `"string"` the result is unchanged when the
top-level enum is dropped; with `type` absent (and no truthy `$ref`, no
combinators) a non-empty enum still maps to `"any"`; the declaration
emitter nevertheless emits an enum declaration whenever `enum` is
present. -/
theorem claim_C8 : ∀ fuel m o,
    (∀ sc : Schema, sc.type ≠ some "string" →
       mapType fuel (some sc) m o = mapType fuel (some (eraseEnum sc)) m o) ∧
    (∀ es props req rf it, truthyStr rf = false →
       mapType (fuel + 1) (some (.mk none (some es) props req none none none rf it)) m o = .ok "any") ∧
    (∀ name (sc : Schema) es, sc.enum = some es →
       ∃ body, generateType fuel name sc m o
         = .ok ("export enum " ++ (o.interfacePrefix.getD "I") ++ name ++ body)) := by
  intro fuel m o
  refine ⟨fun sc hT => mapType_eraseEnum fuel sc m o hT, ?_, ?_⟩
  · intro es props req rf it htr
    simp [mapType, htr]
  · intro name sc es hE
    refine ⟨" \x7b\n" ++ joinSep "\n" (es.map (fun v => "  " ++ safeEnumKey v ++ " = \"" ++ v ++ "\",")) ++ "\n\x7d", ?_⟩
    simp [generateType, hE, String.append_assoc]

/-- C8 witness: the pieces of `claim_C8` at concrete inputs built from
`{type:"integer", enum:["x"]}` and `{enum:["x"]}`. -/
theorem claim_C8_witness :
    Schema.type intEnumSchema ≠ some "string" ∧
    mapType 1 (some intEnumSchema) [] {} = mapType 1 (some (eraseEnum intEnumSchema)) [] {} ∧
    truthyStr (none : Option String) = false ∧
    mapType 2 (some (.mk none (some ["x"]) none none none none none none none)) [] {} = .ok "any" ∧
    Schema.enum intEnumSchema = some ["x"] ∧
    ∃ body, generateType 1 "X" intEnumSchema [] {}
      = .ok ("export enum " ++ (({} : GeneratorOptions).interfacePrefix.getD "I") ++ "X" ++ body) :=
  ⟨by decide, (claim_C8 1 [] {}).1 intEnumSchema (by decide), rfl,
   (claim_C8 1 [] {}).2.1 ["x"] none none none none rfl,
   rfl, (claim_C8 1 [] {}).2.2 "X" intEnumSchema ["x"] rfl⟩

/-- C10.  Enum values are interpolated verbatim between double quotes, with
no escaping: any member `v` of an emitted enum declaration appears as the
text `"v"` (its quotes directly surrounding the raw value), and likewise in
the inline string-literal union produced by `mapType` for string-typed
enums. -/
theorem claim_C10 : ∀ fuel name m o es v (schema : Schema),
    schema.enum = some es → v ∈ es →
    (∃ pre post, generateType fuel name schema m o = .ok (pre ++ ("\"" ++ v ++ "\"") ++ post)) ∧
    (∃ pre post,
      mapType (fuel + 1) (some (.mk (some "string") (some es) none none none none none none none)) m o
        = .ok (pre ++ ("\"" ++ v ++ "\"") ++ post)) := by
  intro fuel name m o es v schema hE hv
  constructor
  · obtain ⟨pre1, post1, hsplit⟩ :=
      joinSep_mem_split (fun w => "  " ++ safeEnumKey w ++ " = \"" ++ w ++ "\",") "\n" es v hv
    refine ⟨"export enum " ++ (o.interfacePrefix.getD "I") ++ name ++ " \x7b\n" ++ pre1
              ++ "  " ++ safeEnumKey v ++ " = ",
            "," ++ post1 ++ "\n\x7d", ?_⟩
    simp only [generateType, hE]
    rw [hsplit]
    refine congrArg Except.ok ?_
    apply String.ext
    simp
  · have hne : es.isEmpty = false := by
      cases es with
      | nil => cases hv
      | cons w rest => rfl
    obtain ⟨pre1, post1, hsplit⟩ :=
      joinSep_mem_split (fun w => "\"" ++ w ++ "\"") " | " es v hv
    refine ⟨pre1, post1, ?_⟩
    simp only [mapType, truthyStr, hne]
    simp [hsplit]

/-- C10 witness: the enum value `a"b`, which itself contains a double
quote, is interpolated unescaped. -/
theorem claim_C10_witness :
    Schema.enum (Schema.mk none (some ["a\"b"]) none none none none none none none) = some ["a\"b"] ∧
    ("a\"b" ∈ ["a\"b"]) ∧
    ((∃ pre post, generateType 1 "X" (.mk none (some ["a\"b"]) none none none none none none none) [] {}
        = .ok (pre ++ ("\"" ++ "a\"b" ++ "\"") ++ post)) ∧
     (∃ pre post, mapType 2 (some (.mk (some "string") (some ["a\"b"]) none none none none none none none)) [] {}
        = .ok (pre ++ ("\"" ++ "a\"b" ++ "\"") ++ post))) :=
  ⟨rfl, by decide,
   claim_C10 1 "X" [] {} ["a\"b"] "a\"b" (.mk none (some ["a\"b"]) none none none none none none none) rfl (by decide)⟩

/-- Every `Option Schema` has positive size. -/
lemma one_le_sizeOf_opt (x : Option Schema) : 1 ≤ sizeOf x := by
  rcases x with _ | sc <;> simp

/-- Every `List Schema` has positive size. -/
lemma one_le_sizeOf_listS (l : List Schema) : 1 ≤ sizeOf l := by
  rcases l with _ | ⟨s, rest⟩
  · simp
  · simp
    omega

/-- Every property list has positive size. -/
lemma one_le_sizeOf_listP (l : List (String × Schema)) : 1 ≤ sizeOf l := by
  rcases l with _ | ⟨p, rest⟩
  · simp
  · simp
    omega

/-- Boolean conjunction elimination. -/
lemma band_true {a b : Bool} (h : (a && b) = true) : a = true ∧ b = true := by
  cases a <;> cases b <;> simp_all

/-- Totality of the engine under `inlineRef=false` and a non-empty naming
prefix, by induction on schema size: each of the four mutually recursive
functions has a canonical result, reached at every sufficient fuel, and
that result is non-empty away from the empty-combinator corner.  The
property-line and variant lists correspond position by position to the
input lists. -/
lemma engineTotal : ∀ n : Nat,
    (∀ (x : Option Schema) m o, o.inlineRef = false → (o.interfacePrefix.getD "I") ≠ "" →
      sizeOf x ≤ n →
      ∃ s, (∀ g, sizeOf x < g → mapType g x m o = .ok s) ∧
        (noEmptyOpt x = true → s ≠ "")) ∧
    (∀ (l : List Schema) m o, o.inlineRef = false → (o.interfacePrefix.getD "I") ≠ "" →
      sizeOf l ≤ n →
      ∃ ts, (∀ g, sizeOf l < g → mapTypeList g l m o = .ok ts) ∧
        List.Forall₂ (fun sc ty => ∀ g, sizeOf (some sc) < g → mapType g (some sc) m o = .ok ty) l ts ∧
        (noEmptyCombList l = true → ∀ t ∈ ts, t ≠ "")) ∧
    (∀ (sc : Schema) m (b : Bool) o, o.inlineRef = false → (o.interfacePrefix.getD "I") ≠ "" →
      sizeOf (some sc) ≤ n →
      ∃ s, (∀ g, sizeOf (some sc) ≤ g → inlineObject g (some sc) m b o = .ok s) ∧ s ≠ "") ∧
    (∀ req (l : List (String × Schema)) m o, o.inlineRef = false → (o.interfacePrefix.getD "I") ≠ "" →
      sizeOf l ≤ n →
      ∃ ls, (∀ g, sizeOf l < g → inlineProps g req l m o = .ok ls) ∧
        List.Forall₂ (fun pp line => ∃ ty,
          (∀ g, sizeOf (some pp.2) < g → mapType g (some pp.2) m o = .ok ty) ∧
          line = "  " ++ safeKey pp.1 ++ (if (req.getD []).contains pp.1 then "" else "?") ++ ": " ++ ty ++ ";") l ls) := by
  intro n
  induction n with
  | zero =>
    refine ⟨?_, ?_, ?_, ?_⟩
    · intro x m o _ _ hsz
      exact absurd (le_trans (one_le_sizeOf_opt x) hsz) (by decide)
    · intro l m o _ _ hsz
      exact absurd (le_trans (one_le_sizeOf_listS l) hsz) (by decide)
    · intro sc m b o _ _ hsz
      exact absurd (le_trans (one_le_sizeOf_opt (some sc)) hsz) (by decide)
    · intro req l m o _ _ hsz
      exact absurd (le_trans (one_le_sizeOf_listP l) hsz) (by decide)
  | succ n ih =>
    obtain ⟨ihMT, ihMTL, ihIO, ihIP⟩ := ih
    -- property lines
    have hIP : ∀ req (l : List (String × Schema)) m o, o.inlineRef = false →
        (o.interfacePrefix.getD "I") ≠ "" → sizeOf l ≤ n + 1 →
        ∃ ls, (∀ g, sizeOf l < g → inlineProps g req l m o = .ok ls) ∧
          List.Forall₂ (fun pp line => ∃ ty,
            (∀ g, sizeOf (some pp.2) < g → mapType g (some pp.2) m o = .ok ty) ∧
            line = "  " ++ safeKey pp.1 ++ (if (req.getD []).contains pp.1 then "" else "?") ++ ": " ++ ty ++ ";") l ls := by
      intro req l m o hIR hPre hsz
      cases l with
      | nil =>
        refine ⟨[], ?_, List.Forall₂.nil⟩
        intro g hg
        rcases g with _ | k
        · exact absurd hg (Nat.not_lt_zero _)
        · rfl
      | cons hd rest =>
        obtain ⟨prop, propSchema⟩ := hd
        simp at hsz
        have hrest1 := one_le_sizeOf_listP rest
        have hszel : sizeOf (some propSchema) ≤ n := by simp; omega
        have hszrest : sizeOf rest ≤ n := by omega
        obtain ⟨ty, hty, -⟩ := ihMT (some propSchema) m o hIR hPre hszel
        obtain ⟨ls, hls, hfor⟩ := ihIP req rest m o hIR hPre hszrest
        refine ⟨("  " ++ safeKey prop ++ (if (req.getD []).contains prop then "" else "?") ++ ": " ++ ty ++ ";") :: ls,
          ?_, List.Forall₂.cons ⟨ty, hty, rfl⟩ hfor⟩
        intro g hg
        rcases g with _ | k
        · exact absurd hg (Nat.not_lt_zero _)
        · simp at hg
          have h1 : mapType k (some propSchema) m o = .ok ty := hty k (by simp; omega)
          have h2 : inlineProps k req rest m o = .ok ls := hls k (by omega)
          simp [inlineProps, h1, h2, bindE_ok]
    -- variant lists
    have hMTL : ∀ (l : List Schema) m o, o.inlineRef = false →
        (o.interfacePrefix.getD "I") ≠ "" → sizeOf l ≤ n + 1 →
        ∃ ts, (∀ g, sizeOf l < g → mapTypeList g l m o = .ok ts) ∧
          List.Forall₂ (fun sc ty => ∀ g, sizeOf (some sc) < g → mapType g (some sc) m o = .ok ty) l ts ∧
          (noEmptyCombList l = true → ∀ t ∈ ts, t ≠ "") := by
      intro l m o hIR hPre hsz
      cases l with
      | nil =>
        refine ⟨[], ?_, List.Forall₂.nil, ?_⟩
        · intro g hg
          rcases g with _ | k
          · exact absurd hg (Nat.not_lt_zero _)
          · rfl
        · intro _ t ht
          cases ht
      | cons s rest =>
        simp at hsz
        have hrest1 := one_le_sizeOf_listS rest
        have hszel : sizeOf (some s) ≤ n := by simp; omega
        have hszrest : sizeOf rest ≤ n := by omega
        obtain ⟨ty, hty, htyne⟩ := ihMT (some s) m o hIR hPre hszel
        obtain ⟨ts, hts, hfor, hne⟩ := ihMTL rest m o hIR hPre hszrest
        refine ⟨ty :: ts, ?_, List.Forall₂.cons hty hfor, ?_⟩
        · intro g hg
          rcases g with _ | k
          · exact absurd hg (Nat.not_lt_zero _)
          · simp at hg
            have h1 : mapType k (some s) m o = .ok ty := hty k (by simp; omega)
            have h2 : mapTypeList k rest m o = .ok ts := hts k (by omega)
            simp [mapTypeList, h1, h2, bindE_ok]
        · intro hno t ht
          simp [noEmptyCombList, Bool.and_eq_true] at hno
          rcases List.mem_cons.mp ht with h | h
          · subst h
            exact htyne (by simpa [noEmptyOpt] using hno.1)
          · exact hne hno.2 t h
    -- inline object renderer
    have hIO : ∀ (sc : Schema) m (b : Bool) o, o.inlineRef = false →
        (o.interfacePrefix.getD "I") ≠ "" → sizeOf (some sc) ≤ n + 1 →
        ∃ s, (∀ g, sizeOf (some sc) ≤ g → inlineObject g (some sc) m b o = .ok s) ∧ s ≠ "" := by
      intro sc m b o hIR hPre hsz
      obtain ⟨t, e, p, r, o1, a1, al, rf, it⟩ := sc
      cases p with
      | none =>
        refine ⟨"\x7b\x7d", ?_, by decide⟩
        intro g hg
        rcases g with _ | k
        · exact absurd (le_trans (one_le_sizeOf_opt _) hg) (by decide)
        · rfl
      | some ps =>
        simp at hsz
        obtain ⟨ls, hls, -⟩ := ihIP r ps m o hIR hPre (by omega)
        refine ⟨"\x7b\n" ++ joinSep "\n" ls ++ "\n\x7d", ?_,
          append_ne_empty_left _ _ (append_ne_empty_left _ _ (by decide))⟩
        intro g hg
        rcases g with _ | k
        · exact absurd (le_trans (one_le_sizeOf_opt _) hg) (by decide)
        · simp at hg
          have h2 : inlineProps k r ps m o = .ok ls := hls k (by omega)
          simp [inlineObject, h2, bindE_ok]
    -- the type expression mapper
    have hMT : ∀ (x : Option Schema) m o, o.inlineRef = false →
        (o.interfacePrefix.getD "I") ≠ "" → sizeOf x ≤ n + 1 →
        ∃ s, (∀ g, sizeOf x < g → mapType g x m o = .ok s) ∧
          (noEmptyOpt x = true → s ≠ "") := by
      intro x m o hIR hPre hsz
      rcases x with _ | sc
      · refine ⟨"any", ?_, fun _ => by decide⟩
        intro g hg
        rcases g with _ | k
        · exact absurd hg (Nat.not_lt_zero _)
        · rfl
      · obtain ⟨t, e, p, r, o1, a1, al, rf, it⟩ := sc
        cases htr : truthyStr rf with
        | true =>
          refine ⟨refName (rf.getD "") o, ?_, fun _ => append_ne_empty_left _ _ hPre⟩
          intro g hg
          rcases g with _ | k
          · exact absurd hg (Nat.not_lt_zero _)
          · simp [mapType, htr, hIR]
        | false =>
          cases o1 with
          | some ss =>
            simp at hsz
            obtain ⟨ts, hts, hfor, hne⟩ := ihMTL ss m o hIR hPre (by omega)
            refine ⟨joinSep " | " ts, ?_, ?_⟩
            · intro g hg
              rcases g with _ | k
              · exact absurd hg (Nat.not_lt_zero _)
              · simp at hg
                have h1 : mapTypeList k ss m o = .ok ts := hts k (by omega)
                simp [mapType, htr, h1, bindE_ok]
            · intro hno
              have hno1 : (combOk (some ss) && combOk a1 && combOk al) = true := hno
              obtain ⟨h12, -⟩ := band_true hno1
              obtain ⟨hcomb, -⟩ := band_true h12
              obtain ⟨hssne, hlist⟩ := band_true hcomb
              cases ss with
              | nil => simp at hssne
              | cons s0 srest =>
                cases hfor with
                | cons h0 hrest =>
                  exact joinSep_ne_empty _ _ _ (hne hlist _ (List.mem_cons_self _ _))
          | none =>
            cases a1 with
            | some ss =>
              simp at hsz
              obtain ⟨ts, hts, hfor, hne⟩ := ihMTL ss m o hIR hPre (by omega)
              refine ⟨joinSep " | " ts, ?_, ?_⟩
              · intro g hg
                rcases g with _ | k
                · exact absurd hg (Nat.not_lt_zero _)
                · simp at hg
                  have h1 : mapTypeList k ss m o = .ok ts := hts k (by omega)
                  simp [mapType, htr, h1, bindE_ok]
              · intro hno
                have hno1 : (combOk none && combOk (some ss) && combOk al) = true := hno
                obtain ⟨h12, -⟩ := band_true hno1
                obtain ⟨-, hcomb⟩ := band_true h12
                obtain ⟨hssne, hlist⟩ := band_true hcomb
                cases ss with
                | nil => simp at hssne
                | cons s0 srest =>
                  cases hfor with
                  | cons h0 hrest =>
                    exact joinSep_ne_empty _ _ _ (hne hlist _ (List.mem_cons_self _ _))
            | none =>
              cases al with
              | some ss =>
                simp at hsz
                obtain ⟨ts, hts, hfor, hne⟩ := ihMTL ss m o hIR hPre (by omega)
                refine ⟨joinSep " & " ts, ?_, ?_⟩
                · intro g hg
                  rcases g with _ | k
                  · exact absurd hg (Nat.not_lt_zero _)
                  · simp at hg
                    have h1 : mapTypeList k ss m o = .ok ts := hts k (by omega)
                    simp [mapType, htr, h1, bindE_ok]
                · intro hno
                  have hno1 : (combOk none && combOk none && combOk (some ss)) = true := hno
                  obtain ⟨-, hcomb⟩ := band_true hno1
                  obtain ⟨hssne, hlist⟩ := band_true hcomb
                  cases ss with
                  | nil => simp at hssne
                  | cons s0 srest =>
                    cases hfor with
                    | cons h0 hrest =>
                      exact joinSep_ne_empty _ _ _ (hne hlist _ (List.mem_cons_self _ _))
              | none =>
                cases t with
                | none =>
                  refine ⟨"any", ?_, fun _ => by decide⟩
                  intro g hg
                  rcases g with _ | k
                  · exact absurd hg (Nat.not_lt_zero _)
                  · simp [mapType, htr]
                | some tv =>
                  by_cases h1 : tv = "integer"
                  · subst h1
                    refine ⟨"number", ?_, fun _ => by decide⟩
                    intro g hg
                    rcases g with _ | k
                    · exact absurd hg (Nat.not_lt_zero _)
                    · simp [mapType, htr]
                  · by_cases h2 : tv = "number"
                    · subst h2
                      refine ⟨"number", ?_, fun _ => by decide⟩
                      intro g hg
                      rcases g with _ | k
                      · exact absurd hg (Nat.not_lt_zero _)
                      · simp [mapType, htr]
                    · by_cases h3 : tv = "string"
                      · subst h3
                        cases e with
                        | none =>
                          refine ⟨"string", ?_, fun _ => by decide⟩
                          intro g hg
                          rcases g with _ | k
                          · exact absurd hg (Nat.not_lt_zero _)
                          · simp [mapType, htr]
                        | some es =>
                          cases hes : es.isEmpty with
                          | true =>
                            refine ⟨"string", ?_, fun _ => by decide⟩
                            intro g hg
                            rcases g with _ | k
                            · exact absurd hg (Nat.not_lt_zero _)
                            · simp [mapType, htr, hes]
                          | false =>
                            refine ⟨joinSep " | " (es.map (fun v => "\"" ++ v ++ "\"")), ?_, ?_⟩
                            · intro g hg
                              rcases g with _ | k
                              · exact absurd hg (Nat.not_lt_zero _)
                              · simp [mapType, htr, hes]
                            · intro _
                              cases es with
                              | nil => simp at hes
                              | cons v0 vrest =>
                                exact joinSep_ne_empty _ _ _
                                  (append_ne_empty_left _ _ (append_ne_empty_left _ _ (by decide)))
                      · by_cases h4 : tv = "boolean"
                        · subst h4
                          refine ⟨"boolean", ?_, fun _ => by decide⟩
                          intro g hg
                          rcases g with _ | k
                          · exact absurd hg (Nat.not_lt_zero _)
                          · simp [mapType, htr]
                        · by_cases h5 : tv = "array"
                          · subst h5
                            cases it with
                            | none =>
                              refine ⟨"any[]", ?_, fun _ => by decide⟩
                              intro g hg
                              rcases g with _ | k
                              · exact absurd hg (Nat.not_lt_zero _)
                              · simp [mapType, htr]
                            | some itm =>
                              simp at hsz
                              obtain ⟨s0, hs0, -⟩ := ihMT (some itm) m o hIR hPre (by simp; omega)
                              refine ⟨s0 ++ "[]", ?_, fun _ => append_ne_empty_right _ _ (by decide)⟩
                              intro g hg
                              rcases g with _ | k
                              · exact absurd hg (Nat.not_lt_zero _)
                              · simp at hg
                                have hx : mapType k (some itm) m o = .ok s0 := hs0 k (by simp; omega)
                                simp [mapType, htr, hx, bindE_ok]
                          · by_cases h6 : tv = "object"
                            · subst h6
                              cases p with
                              | none =>
                                refine ⟨"\x7b [key: string]: any \x7d", ?_, fun _ => by decide⟩
                                intro g hg
                                rcases g with _ | k
                                · exact absurd hg (Nat.not_lt_zero _)
                                · simp [mapType, htr]
                              | some ps =>
                                obtain ⟨s, hs, hsne⟩ := hIO (.mk (some "object") e (some ps) r none none none rf it) m true o hIR hPre hsz
                                refine ⟨s, ?_, fun _ => hsne⟩
                                intro g hg
                                rcases g with _ | k
                                · exact absurd hg (Nat.not_lt_zero _)
                                · have hx : inlineObject k (some (.mk (some "object") e (some ps) r none none none rf it)) m true o = .ok s := hs k (by omega)
                                  simp [mapType, htr, hx]
                            · refine ⟨"any", ?_, fun _ => by decide⟩
                              intro g hg
                              rcases g with _ | k
                              · exact absurd hg (Nat.not_lt_zero _)
                              · simp [mapType, htr, h1, h2, h3, h4, h5, h6]
    exact ⟨hMT, hMTL, hIO, hIP⟩

/-- With `inlineRef=false` and a non-empty prefix, the variant renderer of
`generateType` succeeds on any list of variant schemas small enough for
the fuel. -/
lemma genVariants_ok (fuel : Nat) (m : List (String × Schema)) (o : GeneratorOptions)
    (hIR : o.inlineRef = false) (hPre : (o.interfacePrefix.getD "I") ≠ "") :
    ∀ vs : List Schema, (∀ v ∈ vs, sizeOf (some v) ≤ fuel) →
      ∃ rs, genVariants fuel m o vs = .ok rs := by
  intro vs
  induction vs with
  | nil => exact fun _ => ⟨[], rfl⟩
  | cons v rest ihv =>
    intro hb
    have h1 : sizeOf (some v) ≤ fuel := hb v (List.mem_cons_self _ _)
    obtain ⟨rs, hrs⟩ := ihv (fun w hw => hb w (List.mem_cons_of_mem _ hw))
    by_cases htr : truthyStr v.ref = true
    · refine ⟨refName (v.ref.getD "") o :: rs, ?_⟩
      simp [genVariants, genVariant, htr, hrs, bindE_ok]
    · obtain ⟨-, -, hIO, -⟩ := engineTotal (sizeOf (some v))
      obtain ⟨s, hs, -⟩ := hIO v m true o hIR hPre (le_refl _)
      refine ⟨s :: rs, ?_⟩
      have hx : inlineObject fuel (some v) m true o = .ok s := hs fuel h1
      simp [genVariants, genVariant, htr, hx, hrs, bindE_ok]

/-- C3 counterexample to the claim as stated: the schema `{oneOf: []}` is
mapped by `mapType` to the empty string (the join of zero variants). -/
theorem claim_C3_counterexample :
    mapType 2 (some emptyOneOfSchema) [] {} = .ok "" := rfl

/-- C3 (amended).  With `inlineRef=false`, a non-empty naming prefix and
fuel above the schema size: `mapType` maps an absent schema to `any`;
`mapType` succeeds on every schema, with a non-empty result whenever no
combinator list reachable through combinator nesting is empty; and
`generateType` succeeds on every schema with a non-empty result,
unconditionally. -/
theorem claim_C3 : ∀ fuel name (schema : Schema) m o,
    o.inlineRef = false → (o.interfacePrefix.getD "I") ≠ "" → sizeOf (some schema) < fuel →
    mapType fuel none m o = .ok "any" ∧
    (∃ s, mapType fuel (some schema) m o = .ok s ∧ (noEmptyComb schema = true → s ≠ "")) ∧
    (∃ r, generateType fuel name schema m o = .ok r ∧ r ≠ "") := by
  intro fuel name schema m o hIR hPre hsz
  obtain ⟨hMT, hMTL, hIO, hIP⟩ := engineTotal (sizeOf (some schema))
  refine ⟨?_, ?_, ?_⟩
  · rcases fuel with _ | k
    · exact absurd hsz (Nat.not_lt_zero _)
    · rfl
  · obtain ⟨s, hs, hsne⟩ := hMT (some schema) m o hIR hPre (le_refl _)
    exact ⟨s, hs fuel hsz, fun h => hsne h⟩
  · obtain ⟨t, e, p, r, o1, a1, al, rf, it⟩ := schema
    cases e with
    | some es =>
      refine ⟨"export enum " ++ (o.interfacePrefix.getD "I") ++ name
          ++ (" \x7b\n" ++ joinSep "\n" (es.map (fun v => "  " ++ safeEnumKey v ++ " = \"" ++ v ++ "\",")) ++ "\n\x7d"),
        ?_, append_ne_empty_right _ _ (append_ne_empty_right _ _ (by decide))⟩
      simp [generateType, String.append_assoc]
    | none =>
      cases o1 with
      | some ss =>
        have hbound : ∀ v ∈ ss, sizeOf (some v) ≤ fuel := by
          intro v hv
          have h1 := List.sizeOf_lt_of_mem hv
          simp at hsz ⊢
          omega
        obtain ⟨rs, hrs⟩ := genVariants_ok fuel m o hIR hPre ss hbound
        refine ⟨"export type " ++ (o.interfacePrefix.getD "I") ++ name ++ " = " ++ joinSep " | " rs ++ ";",
          ?_, append_ne_empty_right _ _ (by decide)⟩
        simp [generateType, hrs, bindE_ok, String.append_assoc]
      | none =>
        cases a1 with
        | some ss =>
          have hbound : ∀ v ∈ ss, sizeOf (some v) ≤ fuel := by
            intro v hv
            have h1 := List.sizeOf_lt_of_mem hv
            simp at hsz ⊢
            omega
          obtain ⟨rs, hrs⟩ := genVariants_ok fuel m o hIR hPre ss hbound
          refine ⟨"export type " ++ (o.interfacePrefix.getD "I") ++ name ++ " = " ++ joinSep " | " rs ++ ";",
            ?_, append_ne_empty_right _ _ (by decide)⟩
          simp [generateType, hrs, bindE_ok, String.append_assoc]
        | none =>
          cases al with
          | some parts =>
            have hbound : ∀ v ∈ parts, sizeOf (some v) ≤ fuel := by
              intro v hv
              have h1 := List.sizeOf_lt_of_mem hv
              simp at hsz ⊢
              omega
            obtain ⟨rs, hrs⟩ := genVariants_ok fuel m o hIR hPre parts hbound
            refine ⟨"export type " ++ (o.interfacePrefix.getD "I") ++ name ++ " = " ++ joinSep " & " rs ++ ";",
              ?_, append_ne_empty_right _ _ (by decide)⟩
            simp [generateType, hrs, bindE_ok, String.append_assoc]
          | none =>
            by_cases hob : (t == some "object" || p.isSome) = true
            · obtain ⟨s, hs, hsne⟩ := hIO (.mk t none p r none none none rf it) m true o hIR hPre (le_refl _)
              have hx : inlineObject fuel (some (.mk t none p r none none none rf it)) m true o = .ok s :=
                hs fuel (le_of_lt hsz)
              refine ⟨"export interface " ++ (o.interfacePrefix.getD "I") ++ name ++ " " ++ s,
                ?_, append_ne_empty_right _ _ hsne⟩
              simp [generateType, hob, hx, bindE_ok, String.append_assoc]
            · refine ⟨"export type " ++ (o.interfacePrefix.getD "I") ++ name ++ " = any;",
                ?_, append_ne_empty_right _ _ (by decide)⟩
              simp [generateType, hob, String.append_assoc]

/-- C3 witness: the object schema example, at fuel 40 with default options. -/
theorem claim_C3_witness :
    (({} : GeneratorOptions).inlineRef = false) ∧
    (({} : GeneratorOptions).interfacePrefix.getD "I" ≠ "") ∧
    sizeOf (some objExample) < 100000 ∧
    (mapType 100000 none [] {} = .ok "any" ∧
     (∃ s, mapType 100000 (some objExample) [] {} = .ok s ∧ (noEmptyComb objExample = true → s ≠ "")) ∧
     (∃ r, generateType 100000 "X" objExample [] {} = .ok r ∧ r ≠ "")) :=
  ⟨rfl, by decide, by decide, claim_C3 100000 "X" objExample [] {} rfl (by decide) (by decide)⟩

/-- C6.  Order preservation: object field lines correspond position by
position (`List.Forall₂`) to the input `properties` list, and union /
intersection variants are joined in exactly the input `oneOf` / `anyOf` /
`allOf` order, with no de-duplication and no reordering. -/
theorem claim_C6 : ∀ fuel m o, o.inlineRef = false → (o.interfacePrefix.getD "I") ≠ "" →
    (∀ (schema : Schema) props, schema.properties = some props → sizeOf (some schema) < fuel →
      ∃ lines, inlineObject fuel (some schema) m true o
          = .ok ("\x7b\n" ++ joinSep "\n" lines ++ "\n\x7d") ∧
        List.Forall₂ (fun pp line => ∃ ty,
          (∀ g, sizeOf (some pp.2) < g → mapType g (some pp.2) m o = .ok ty) ∧
          line = "  " ++ safeKey pp.1 ++ (if ((schema.required).getD []).contains pp.1 then "" else "?") ++ ": " ++ ty ++ ";") props lines) ∧
    (∀ (schema : Schema) ss, truthyStr schema.ref = false → schema.oneOf = some ss →
        sizeOf (some schema) < fuel →
      ∃ ts, mapType fuel (some schema) m o = .ok (joinSep " | " ts) ∧
        List.Forall₂ (fun sc ty => ∀ g, sizeOf (some sc) < g → mapType g (some sc) m o = .ok ty) ss ts) ∧
    (∀ (schema : Schema) ss, truthyStr schema.ref = false → schema.oneOf = none →
        schema.anyOf = some ss → sizeOf (some schema) < fuel →
      ∃ ts, mapType fuel (some schema) m o = .ok (joinSep " | " ts) ∧
        List.Forall₂ (fun sc ty => ∀ g, sizeOf (some sc) < g → mapType g (some sc) m o = .ok ty) ss ts) ∧
    (∀ (schema : Schema) ss, truthyStr schema.ref = false → schema.oneOf = none →
        schema.anyOf = none → schema.allOf = some ss → sizeOf (some schema) < fuel →
      ∃ ts, mapType fuel (some schema) m o = .ok (joinSep " & " ts) ∧
        List.Forall₂ (fun sc ty => ∀ g, sizeOf (some sc) < g → mapType g (some sc) m o = .ok ty) ss ts) := by
  intro fuel m o hIR hPre
  refine ⟨?_, ?_, ?_, ?_⟩
  · intro schema props hp hsz
    obtain ⟨t, e, p, r, o1, a1, al, rf, it⟩ := schema
    simp only [properties_mk] at hp
    subst hp
    rcases fuel with _ | k
    · exact absurd hsz (Nat.not_lt_zero _)
    · simp at hsz
      obtain ⟨-, -, -, hIP⟩ := engineTotal (sizeOf props)
      obtain ⟨ls, hls, hfor⟩ := hIP r props m o hIR hPre (le_refl _)
      have hx : inlineProps k r props m o = .ok ls := hls k (by omega)
      refine ⟨ls, ?_, ?_⟩
      · simp [inlineObject, hx, bindE_ok]
      · simpa using hfor
  · intro schema ss href ho hsz
    obtain ⟨t, e, p, r, o1, a1, al, rf, it⟩ := schema
    simp only [ref_mk] at href
    simp only [oneOf_mk] at ho
    subst ho
    rcases fuel with _ | k
    · exact absurd hsz (Nat.not_lt_zero _)
    · simp at hsz
      obtain ⟨-, hMTL, -, -⟩ := engineTotal (sizeOf ss)
      obtain ⟨ts, hts, hfor, -⟩ := hMTL ss m o hIR hPre (le_refl _)
      have h1 : mapTypeList k ss m o = .ok ts := hts k (by omega)
      exact ⟨ts, by simp [mapType, href, h1, bindE_ok], hfor⟩
  · intro schema ss href ho ha hsz
    obtain ⟨t, e, p, r, o1, a1, al, rf, it⟩ := schema
    simp only [ref_mk] at href
    simp only [oneOf_mk] at ho
    simp only [anyOf_mk] at ha
    subst ho
    subst ha
    rcases fuel with _ | k
    · exact absurd hsz (Nat.not_lt_zero _)
    · simp at hsz
      obtain ⟨-, hMTL, -, -⟩ := engineTotal (sizeOf ss)
      obtain ⟨ts, hts, hfor, -⟩ := hMTL ss m o hIR hPre (le_refl _)
      have h1 : mapTypeList k ss m o = .ok ts := hts k (by omega)
      exact ⟨ts, by simp [mapType, href, h1, bindE_ok], hfor⟩
  · intro schema ss href ho ha hal hsz
    obtain ⟨t, e, p, r, o1, a1, al, rf, it⟩ := schema
    simp only [ref_mk] at href
    simp only [oneOf_mk] at ho
    simp only [anyOf_mk] at ha
    simp only [allOf_mk] at hal
    subst ho
    subst ha
    subst hal
    rcases fuel with _ | k
    · exact absurd hsz (Nat.not_lt_zero _)
    · simp at hsz
      obtain ⟨-, hMTL, -, -⟩ := engineTotal (sizeOf ss)
      obtain ⟨ts, hts, hfor, -⟩ := hMTL ss m o hIR hPre (le_refl _)
      have h1 : mapTypeList k ss m o = .ok ts := hts k (by omega)
      exact ⟨ts, by simp [mapType, href, h1, bindE_ok], hfor⟩

/-- C6 witness: the object example (property order `a` then `b`), the
`oneOf` example, the `anyOf` example and the `allOf` example, at fuel
100000 with default options. -/
theorem claim_C6_witness :
    (({} : GeneratorOptions).inlineRef = false) ∧
    (({} : GeneratorOptions).interfacePrefix.getD "I" ≠ "") ∧
    (∃ lines, inlineObject 100000 (some objExample) [] true {}
        = .ok ("\x7b\n" ++ joinSep "\n" lines ++ "\n\x7d") ∧
      List.Forall₂ (fun pp line => ∃ ty,
        (∀ g, sizeOf (some pp.2) < g → mapType g (some pp.2) [] {} = .ok ty) ∧
        line = "  " ++ safeKey pp.1 ++ (if ((objExample.required).getD []).contains pp.1 then "" else "?") ++ ": " ++ ty ++ ";")
        [("a", tySchema "string"), ("b", tySchema "boolean")] lines) ∧
    (∃ ts, mapType 100000 (some unionExample) [] {} = .ok (joinSep " | " ts) ∧
      List.Forall₂ (fun sc ty => ∀ g, sizeOf (some sc) < g → mapType g (some sc) [] {} = .ok ty)
        [tySchema "string", tySchema "number"] ts) ∧
    (∃ ts, mapType 100000 (some anyOfExample) [] {} = .ok (joinSep " | " ts) ∧
      List.Forall₂ (fun sc ty => ∀ g, sizeOf (some sc) < g → mapType g (some sc) [] {} = .ok ty)
        [tySchema "string", tySchema "number"] ts) ∧
    (∃ ts, mapType 100000 (some allOfExample) [] {} = .ok (joinSep " & " ts) ∧
      List.Forall₂ (fun sc ty => ∀ g, sizeOf (some sc) < g → mapType g (some sc) [] {} = .ok ty)
        [objExample, tySchema "string"] ts) := by
  have h := claim_C6 100000 [] {} rfl (by decide)
  exact ⟨rfl, by decide,
    h.1 objExample [("a", tySchema "string"), ("b", tySchema "boolean")] rfl (by decide),
    h.2.1 unionExample [tySchema "string", tySchema "number"] rfl rfl (by decide),
    h.2.2.1 anyOfExample [tySchema "string", tySchema "number"] rfl rfl rfl (by decide),
    h.2.2.2 allOfExample [objExample, tySchema "string"] rfl rfl rfl rfl (by decide)⟩
